import Mathlib

/-!
Verification of `convert_png.py`: a PNG → raw RGB565 converter.

The pure computations of the script (the RGB888→RGB565 quantizer, the
row-major pixel traversal and the little-endian serialization) are embedded
directly.  The effectful parts (PIL decoding, the output file, the process
exit code) are modelled by explicit data: `Option Image` for the decode
result and `Option (List ℕ)` for the bytes stored at the output path.
-/

namespace ConvertPng

/-- `rgb888_to_rgb565` from `convert_png.py`: scale each channel with
truncating division and pack the 5-6-5 fields with shifts and ors,
left-associated as in the Python expression `(r5 << 11) | (g6 << 5) | b5`. -/
def rgb888_to_rgb565 (r g b : ℕ) : ℕ :=
  let r5 := (r * 31) / 255
  let g6 := (g * 63) / 255
  let b5 := (b * 31) / 255
  ((r5 <<< 11) ||| (g6 <<< 5)) ||| b5

/-- The quantization formula as the specification words it:
`(floor(r*31/255) << 11) | (floor(g*63/255) << 5) | floor(b*31/255)`. -/
def quantize_spec (r g b : ℕ) : ℕ :=
  (((r * 31) / 255) <<< 11) ||| (((g * 63) / 255) <<< 5) ||| ((b * 31) / 255)

/-- A decoded image: width, height, and a pixel accessor returning the
(R, G, B) channels at a coordinate, as PIL's `img.getpixel((x, y))`. -/
structure Image where
  width : ℕ
  height : ℕ
  pixel : ℕ → ℕ → ℕ × ℕ × ℕ

/-- The quantized value of the pixel at `(x, y)`:
`rgb888_to_rgb565(*img.getpixel((x, y)))`. -/
def quantizePixel (img : Image) (x y : ℕ) : ℕ :=
  rgb888_to_rgb565 (img.pixel x y).1 (img.pixel x y).2.1 (img.pixel x y).2.2

/-- The `rgb565_data` list built by the double loop
`for y in range(height): for x in range(width): ...append(rgb565)`. -/
def rgb565_data (img : Image) : List ℕ :=
  (List.range img.height).flatMap fun y =>
    (List.range img.width).map fun x => quantizePixel img x y

/-- The two bytes of a value laid out as a little-endian `uint16`. -/
def u16_le (v : ℕ) : List ℕ :=
  [v % 256, v / 256]

/-- `struct.pack("<H", v)`: the two little-endian bytes when `v` fits in
16 bits, failure (a raised `struct.error`) otherwise. -/
def pack_u16_le (v : ℕ) : Option (List ℕ) :=
  if v < 65536 then some (u16_le v) else none

/-- Little-endian decoding of a byte list (base 256, least significant
byte first). -/
def le_decode (l : List ℕ) : ℕ :=
  l.foldr (fun b acc => b + 256 * acc) 0

/-- The pixel-writing loop `for pixel in rgb565_data: f.write(struct.pack("<H", pixel))`:
bytes written so far are accumulated; a packing failure stops the loop,
leaving the bytes already written in the file. -/
def write_pixels : List ℕ → List ℕ → List ℕ × Bool
  | acc, [] => (acc, true)
  | acc, p :: rest =>
    match pack_u16_le p with
    | some bs => write_pixels (acc ++ bs) rest
    | none => (acc, false)

/-- The body of the `with open(output_path, "wb")` block: write the
`struct.pack("<HH", width, height)` header, then every pixel.  Opening with
mode `"wb"` truncates the file first, so when the header packing raises the
file is left empty. -/
def write_output (img : Image) : List ℕ × Bool :=
  match pack_u16_le img.width, pack_u16_le img.height with
  | some hw, some hh => write_pixels (hw ++ hh) (rgb565_data img)
  | _, _ => ([], false)

/-- `convert_png_to_rgb565(input_path, output_path)`.  `decodeResult` models
what `Image.open(input_path).convert("RGB")` yields (`none` when it raises,
e.g. for a missing file), `existingOut` the bytes currently stored at the
output path (`none` when no file exists there).  Returns the function's
boolean result together with the resulting output-file state: when decoding
fails the output path is never opened, so its state is unchanged. -/
def convert_png_to_rgb565 (decodeResult : Option Image)
    (existingOut : Option (List ℕ)) : Bool × Option (List ℕ) :=
  match decodeResult with
  | none => (false, existingOut)
  | some img =>
    let r := write_output img
    (r.2, some r.1)

/-- The `__main__` block: exit code 1 when `len(sys.argv) != 3` or the
conversion returns `False`; falling off the end on success gives exit
code 0. -/
def cli_exit (argv : List String) (decodeResult : Option Image)
    (existingOut : Option (List ℕ)) : ℕ :=
  if argv.length ≠ 3 then 1
  else if (convert_png_to_rgb565 decodeResult existingOut).1 then 0 else 1

/-- The 2×1 image with pixels `[(255,0,0), (0,255,0)]` from the round-trip
scenario. -/
def testImage : Image :=
  ⟨2, 1, fun x _ => if x = 0 then (255, 0, 0) else (0, 255, 0)⟩

/-! ### Arithmetic facts about the bit packing -/

lemma mul_pow_lor {a : ℕ} (k : ℕ) (h : a < 2 ^ k) (x : ℕ) :
    x * 2 ^ k ||| a = x * 2 ^ k + a := by
  rw [mul_comm x (2 ^ k), ← Nat.mul_add_lt_is_or h x]

lemma chan_div_le {c m : ℕ} (hc : c ≤ 255) : c * m / 255 ≤ m := by
  calc c * m / 255 ≤ 255 * m / 255 :=
        Nat.div_le_div_right (Nat.mul_le_mul_right _ hc)
    _ = m := by rw [Nat.mul_div_cancel_left _ (by norm_num : (0:ℕ) < 255)]

/-- On in-range green and blue channels, the shifted-or packing coincides
with the weighted sum of the three scaled fields. -/
lemma rgb565_decomp (r g b : ℕ) (hg : g ≤ 255) (hb : b ≤ 255) :
    rgb888_to_rgb565 r g b =
      (r * 31 / 255) * 2048 + (g * 63 / 255) * 32 + b * 31 / 255 := by
  have hg6 : g * 63 / 255 ≤ 63 := chan_div_le hg
  have hb5 : b * 31 / 255 ≤ 31 := chan_div_le hb
  show ((r * 31 / 255) <<< 11 ||| (g * 63 / 255) <<< 5) ||| (b * 31 / 255) = _
  rw [Nat.shiftLeft_eq, Nat.shiftLeft_eq,
    mul_pow_lor 11 (by omega : (g * 63 / 255) * 2 ^ 5 < 2 ^ 11) _]
  have h2 : (r * 31 / 255) * 2 ^ 11 + (g * 63 / 255) * 2 ^ 5 =
      ((r * 31 / 255) * 64 + g * 63 / 255) * 2 ^ 5 := by ring
  rw [h2, mul_pow_lor 5 (by omega : b * 31 / 255 < 2 ^ 5) _]
  ring

/-- The quantizer's result on in-range channels fits in 16 bits. -/
lemma rgb565_le (r g b : ℕ) (hr : r ≤ 255) (hg : g ≤ 255) (hb : b ≤ 255) :
    rgb888_to_rgb565 r g b ≤ 65535 := by
  have hr5 : r * 31 / 255 ≤ 31 := chan_div_le hr
  have hg6 : g * 63 / 255 ≤ 63 := chan_div_le hg
  have hb5 : b * 31 / 255 ≤ 31 := chan_div_le hb
  rw [rgb565_decomp r g b hg hb]
  omega

/-! ### Claim theorems (quantizer) -/

/-- C1: for every (r,g,b) with each channel in [0,255], the quantizer
returns exactly `(floor(r*31/255) << 11) | (floor(g*63/255) << 5) |
floor(b*31/255)`, with truncating integer division on each channel. -/
theorem quantizer_matches_spec_formula (r g b : ℕ)
    (hr : r ≤ 255) (hg : g ≤ 255) (hb : b ≤ 255) :
    rgb888_to_rgb565 r g b = quantize_spec r g b := rfl

theorem quantizer_matches_spec_formula_witness :
    (17 ≤ 255 ∧ 99 ≤ 255 ∧ 200 ≤ 255) ∧
      rgb888_to_rgb565 17 99 200 = quantize_spec 17 99 200 :=
  ⟨⟨by decide, by decide, by decide⟩,
    quantizer_matches_spec_formula 17 99 200 (by decide) (by decide) (by decide)⟩

/-- C5: the quantizer maps the five endpoint colors to their exact RGB565
values: black ↦ 0, white ↦ 0xFFFF, red ↦ 0xF800, green ↦ 0x07E0,
blue ↦ 0x001F. -/
theorem quantizer_endpoint_colors :
    rgb888_to_rgb565 0 0 0 = 0 ∧
    rgb888_to_rgb565 255 255 255 = 0xFFFF ∧
    rgb888_to_rgb565 255 0 0 = 0xF800 ∧
    rgb888_to_rgb565 0 255 0 = 0x07E0 ∧
    rgb888_to_rgb565 0 0 255 = 0x001F := by
  refine ⟨rfl, rfl, rfl, rfl, rfl⟩

/-- C6: for all channels in [0,255] the quantizer's result lies in
[0, 65535], so packing it as a `uint16` never fails. -/
theorem quantizer_fits_u16 (r g b : ℕ)
    (hr : r ≤ 255) (hg : g ≤ 255) (hb : b ≤ 255) :
    rgb888_to_rgb565 r g b ≤ 65535 ∧
      pack_u16_le (rgb888_to_rgb565 r g b) =
        some (u16_le (rgb888_to_rgb565 r g b)) := by
  have h := rgb565_le r g b hr hg hb
  exact ⟨h, by simp [pack_u16_le, Nat.lt_succ_of_le h]⟩

theorem quantizer_fits_u16_witness :
    (254 ≤ 255 ∧ 253 ≤ 255 ∧ 252 ≤ 255) ∧
      (rgb888_to_rgb565 254 253 252 ≤ 65535 ∧
        pack_u16_le (rgb888_to_rgb565 254 253 252) =
          some (u16_le (rgb888_to_rgb565 254 253 252))) :=
  ⟨⟨by decide, by decide, by decide⟩,
    quantizer_fits_u16 254 253 252 (by decide) (by decide) (by decide)⟩

/-- C9: the quantizer is monotone per channel: with the other two channels
fixed at in-range values, increasing one channel never decreases the packed
result. -/
theorem quantizer_monotone_per_channel :
    (∀ r r' g b, r ≤ r' → g ≤ 255 → b ≤ 255 →
      rgb888_to_rgb565 r g b ≤ rgb888_to_rgb565 r' g b) ∧
    (∀ r g g' b, g ≤ g' → g' ≤ 255 → b ≤ 255 →
      rgb888_to_rgb565 r g b ≤ rgb888_to_rgb565 r g' b) ∧
    (∀ r g b b', b ≤ b' → g ≤ 255 → b' ≤ 255 →
      rgb888_to_rgb565 r g b ≤ rgb888_to_rgb565 r g b') := by
  refine ⟨?_, ?_, ?_⟩
  · intro r r' g b hrr hg hb
    rw [rgb565_decomp r g b hg hb, rgb565_decomp r' g b hg hb]
    have : r * 31 / 255 ≤ r' * 31 / 255 :=
      Nat.div_le_div_right (Nat.mul_le_mul_right _ hrr)
    omega
  · intro r g g' b hgg hg' hb
    rw [rgb565_decomp r g b (hgg.trans hg') hb, rgb565_decomp r g' b hg' hb]
    have : g * 63 / 255 ≤ g' * 63 / 255 :=
      Nat.div_le_div_right (Nat.mul_le_mul_right _ hgg)
    omega
  · intro r g b b' hbb hg hb'
    rw [rgb565_decomp r g b hg (hbb.trans hb'), rgb565_decomp r g b' hg hb']
    have : b * 31 / 255 ≤ b' * 31 / 255 :=
      Nat.div_le_div_right (Nat.mul_le_mul_right _ hbb)
    omega

theorem quantizer_monotone_per_channel_witness :
    rgb888_to_rgb565 10 20 30 ≤ rgb888_to_rgb565 11 20 30 ∧
    rgb888_to_rgb565 10 20 30 ≤ rgb888_to_rgb565 10 21 30 ∧
    rgb888_to_rgb565 10 20 30 ≤ rgb888_to_rgb565 10 20 31 :=
  ⟨quantizer_monotone_per_channel.1 10 11 20 30 (by decide) (by decide) (by decide),
   quantizer_monotone_per_channel.2.1 10 20 21 30 (by decide) (by decide) (by decide),
   quantizer_monotone_per_channel.2.2 10 20 30 31 (by decide) (by decide) (by decide)⟩

/-- C3: converting the 2×1 image with pixels [(255,0,0), (0,255,0)]
produces exactly the 8 output bytes `02 00 01 00 00 F8 E0 07` and reports
success. -/
theorem roundtrip_2x1_bytes :
    convert_png_to_rgb565 (some testImage) none =
      (true, some [0x02, 0x00, 0x01, 0x00, 0x00, 0xF8, 0xE0, 0x07]) := by
  decide

/-! ### Serialization lemmas -/

lemma write_pixels_all_small (l : List ℕ) (acc : List ℕ)
    (h : ∀ p ∈ l, p < 65536) :
    write_pixels acc l = (acc ++ (l.map u16_le).flatten, true) := by
  induction l generalizing acc with
  | nil => simp [write_pixels]
  | cons p rest ih =>
    have hp : p < 65536 := h p (List.mem_cons_self _ _)
    simp only [write_pixels, pack_u16_le, if_pos hp]
    rw [ih _ fun q hq => h q (List.mem_cons_of_mem _ hq)]
    simp

lemma mem_rgb565_data {img : Image} {p : ℕ} (h : p ∈ rgb565_data img) :
    ∃ x y, x < img.width ∧ y < img.height ∧ p = quantizePixel img x y := by
  simp only [rgb565_data, List.mem_flatMap, List.mem_map, List.mem_range] at h
  obtain ⟨y, hy, x, hx, rfl⟩ := h
  exact ⟨x, y, hx, hy, rfl⟩

/-- Every value produced by the pixel loop on an image with 8-bit channels
fits in 16 bits. -/
lemma rgb565_data_lt (img : Image)
    (hpix : ∀ x y, x < img.width → y < img.height →
      (img.pixel x y).1 ≤ 255 ∧ (img.pixel x y).2.1 ≤ 255 ∧
        (img.pixel x y).2.2 ≤ 255) :
    ∀ p ∈ rgb565_data img, p < 65536 := by
  intro p hp
  obtain ⟨x, y, hx, hy, rfl⟩ := mem_rgb565_data hp
  obtain ⟨h1, h2, h3⟩ := hpix x y hx hy
  exact Nat.lt_succ_of_le (rgb565_le _ _ _ h1 h2 h3)

/-- On an image whose dimensions and pixel values all pack, `write_output`
succeeds and produces the header followed by the serialized pixel list. -/
lemma write_output_eq (img : Image)
    (hW : img.width < 65536) (hH : img.height < 65536)
    (hpx : ∀ p ∈ rgb565_data img, p < 65536) :
    write_output img =
      ((u16_le img.width ++ u16_le img.height) ++
        ((rgb565_data img).map u16_le).flatten, true) := by
  simp only [write_output, pack_u16_le, if_pos hW, if_pos hH]
  rw [write_pixels_all_small _ _ hpx]

lemma length_flatten_u16 (l : List ℕ) :
    ((l.map u16_le).flatten).length = 2 * l.length := by
  induction l with
  | nil => simp
  | cons p rest ih =>
    simp only [List.map_cons, List.flatten_cons, List.length_append,
      List.length_cons, ih, u16_le]
    simp
    omega

lemma length_rgb565_data (img : Image) :
    (rgb565_data img).length = img.height * img.width := by
  simp only [rgb565_data, List.length_flatMap]
  have : List.map (List.length ∘ fun y =>
      (List.range img.width).map fun x => quantizePixel img x y)
      (List.range img.height) =
      List.replicate img.height img.width := by
    rw [List.eq_replicate_iff]
    constructor
    · simp
    · intro b hb
      simp only [List.mem_map] at hb
      obtain ⟨y, _, rfl⟩ := hb
      simp
  rw [this, List.sum_replicate, smul_eq_mul]

/-- Indexing into the flattening of a list of lists of equal length `W`. -/
lemma flatten_getElem_const (W : ℕ) :
    ∀ (L : List (List ℕ)), (∀ l ∈ L, l.length = W) →
      ∀ i j, j < W →
        L.flatten[i * W + j]? = L[i]?.bind fun l => l[j]? := by
  intro L
  induction L with
  | nil => intro _ i j _; simp
  | cons l L' ih =>
    intro hlen i j hj
    have hl : l.length = W := hlen l (List.mem_cons_self _ _)
    cases i with
    | zero =>
      simp only [Nat.zero_mul, Nat.zero_add, List.flatten_cons,
        List.getElem?_append, List.getElem?_cons_zero, Option.some_bind]
      rw [if_pos (by omega)]
    | succ k =>
      simp only [List.flatten_cons]
      have hle : l.length ≤ (k + 1) * W + j := by
        calc l.length = 1 * W := by rw [hl, one_mul]
          _ ≤ (k + 1) * W := Nat.mul_le_mul_right W (by omega)
          _ ≤ (k + 1) * W + j := Nat.le_add_right _ _
      rw [List.getElem?_append_right hle]
      have harith : (k + 1) * W + j - l.length = k * W + j := by
        rw [hl]; ring_nf; omega
      rw [harith, ih (fun m hm => hlen m (List.mem_cons_of_mem _ hm)) k j hj,
        List.getElem?_cons_succ]

/-- The element of `rgb565_data` at position `y*W + x` is the quantized
pixel at coordinate `(x, y)`: the traversal is row-major. -/
lemma rgb565_data_getElem (img : Image) {x y : ℕ}
    (hx : x < img.width) (hy : y < img.height) :
    (rgb565_data img)[y * img.width + x]? = some (quantizePixel img x y) := by
  have hdef : rgb565_data img =
      ((List.range img.height).map fun y =>
        (List.range img.width).map fun x => quantizePixel img x y).flatten := rfl
  rw [hdef, flatten_getElem_const img.width _ (by
      intro l hl
      simp only [List.mem_map] at hl
      obtain ⟨y', _, rfl⟩ := hl
      simp) y x hx]
  rw [List.getElem?_map, List.getElem?_range hy]
  simp only [Option.map_some', Option.some_bind]
  rw [List.getElem?_map, List.getElem?_range hx]
  rfl

/-- The two bytes of pixel `i` inside the serialized pixel stream. -/
lemma flatten_u16_getElem (l : List ℕ) (i : ℕ) :
    ((l.map u16_le).flatten)[2 * i]? = l[i]?.map (fun v => v % 256) ∧
    ((l.map u16_le).flatten)[2 * i + 1]? = l[i]?.map (fun v => v / 256) := by
  induction l generalizing i with
  | nil => simp
  | cons p rest ih =>
    cases i with
    | zero =>
      simp only [Nat.mul_zero, List.map_cons, List.flatten_cons, u16_le]
      simp
    | succ k =>
      have hlen : (u16_le p).length = 2 := rfl
      constructor
      · rw [List.map_cons, List.flatten_cons,
          List.getElem?_append_right (by rw [hlen]; omega), hlen,
          (by omega : 2 * (k + 1) - 2 = 2 * k), (ih k).1,
          List.getElem?_cons_succ]
      · rw [List.map_cons, List.flatten_cons,
          List.getElem?_append_right (by rw [hlen]; omega), hlen,
          (by omega : 2 * (k + 1) + 1 - 2 = 2 * k + 1), (ih k).2,
          List.getElem?_cons_succ]

/-! ### Claim theorems (serialization, error handling, CLI) -/

/-- C2: for every decoded image (u16 dimensions, 8-bit channels), the
output byte stream is the 4-byte little-endian header (width then height)
followed by the quantized pixels as little-endian uint16 values in
row-major order: the pixel at `(x, y)` occupies the two bytes starting at
offset `4 + 2*(y*W + x)`. -/
theorem output_stream_layout (img : Image) (x y : ℕ)
    (hW : img.width ≤ 65535) (hH : img.height ≤ 65535)
    (hpix : ∀ x y, x < img.width → y < img.height →
      (img.pixel x y).1 ≤ 255 ∧ (img.pixel x y).2.1 ≤ 255 ∧
        (img.pixel x y).2.2 ≤ 255)
    (hx : x < img.width) (hy : y < img.height) :
    (write_output img).2 = true ∧
    (write_output img).1[0]? = some (img.width % 256) ∧
    (write_output img).1[1]? = some (img.width / 256) ∧
    (write_output img).1[2]? = some (img.height % 256) ∧
    (write_output img).1[3]? = some (img.height / 256) ∧
    (write_output img).1[4 + 2 * (y * img.width + x)]? =
      some (quantizePixel img x y % 256) ∧
    (write_output img).1[4 + 2 * (y * img.width + x) + 1]? =
      some (quantizePixel img x y / 256) := by
  have hpx := rgb565_data_lt img hpix
  rw [write_output_eq img (by omega) (by omega) hpx]
  have hplen : (u16_le img.width ++ u16_le img.height).length = 4 := rfl
  have hbytes : (u16_le img.width ++ u16_le img.height) ++
      ((rgb565_data img).map u16_le).flatten =
      img.width % 256 :: img.width / 256 :: img.height % 256 ::
        img.height / 256 :: ((rgb565_data img).map u16_le).flatten := rfl
  refine ⟨rfl, ?_, ?_, ?_, ?_, ?_, ?_⟩
  · rw [hbytes]
    simp [List.getElem?_cons]
  · rw [hbytes]
    simp [List.getElem?_cons]
  · rw [hbytes]
    simp [List.getElem?_cons]
  · rw [hbytes]
    simp [List.getElem?_cons]
  · rw [List.getElem?_append_right (by rw [hplen]; omega), hplen,
      (by omega : 4 + 2 * (y * img.width + x) - 4 = 2 * (y * img.width + x)),
      (flatten_u16_getElem _ _).1, rgb565_data_getElem img hx hy]
    rfl
  · rw [List.getElem?_append_right (by rw [hplen]; omega), hplen,
      (by omega :
        4 + 2 * (y * img.width + x) + 1 - 4 = 2 * (y * img.width + x) + 1),
      (flatten_u16_getElem _ _).2, rgb565_data_getElem img hx hy]
    rfl

theorem output_stream_layout_witness :
    (write_output testImage).2 = true ∧
    (write_output testImage).1[0]? = some 2 ∧
    (write_output testImage).1[1]? = some 0 ∧
    (write_output testImage).1[2]? = some 1 ∧
    (write_output testImage).1[3]? = some 0 ∧
    (write_output testImage).1[4 + 2 * (0 * testImage.width + 1)]? =
      some 0xE0 ∧
    (write_output testImage).1[4 + 2 * (0 * testImage.width + 1) + 1]? =
      some 0x07 :=
  output_stream_layout testImage 1 0 (by decide) (by decide)
    (by
      intro x y _ _
      by_cases hx0 : x = 0 <;> simp [testImage, hx0])
    (by decide) (by decide)

/-- C4: for every successfully converted image the output is exactly
`4 + 2*W*H` bytes, the first two bytes little-endian-decode to the width
and the next two to the height. -/
theorem output_length_and_header (img : Image)
    (hW : img.width ≤ 65535) (hH : img.height ≤ 65535)
    (hpix : ∀ x y, x < img.width → y < img.height →
      (img.pixel x y).1 ≤ 255 ∧ (img.pixel x y).2.1 ≤ 255 ∧
        (img.pixel x y).2.2 ≤ 255) :
    (write_output img).2 = true ∧
    (write_output img).1.length = 4 + 2 * (img.width * img.height) ∧
    le_decode ((write_output img).1.take 2) = img.width ∧
    le_decode (((write_output img).1.drop 2).take 2) = img.height := by
  have hpx := rgb565_data_lt img hpix
  rw [write_output_eq img (by omega) (by omega) hpx]
  refine ⟨rfl, ?_, ?_, ?_⟩
  · have hplen : (u16_le img.width ++ u16_le img.height).length = 4 := rfl
    rw [List.length_append, hplen, length_flatten_u16, length_rgb565_data,
      Nat.mul_comm img.height img.width]
  · show le_decode [img.width % 256, img.width / 256] = img.width
    simp only [le_decode, List.foldr]
    omega
  · show le_decode [img.height % 256, img.height / 256] = img.height
    simp only [le_decode, List.foldr]
    omega

theorem output_length_and_header_witness :
    (write_output testImage).2 = true ∧
    (write_output testImage).1.length =
      4 + 2 * (testImage.width * testImage.height) ∧
    le_decode ((write_output testImage).1.take 2) = testImage.width ∧
    le_decode (((write_output testImage).1.drop 2).take 2) =
      testImage.height :=
  output_length_and_header testImage (by decide) (by decide)
    (by
      intro x y _ _
      by_cases hx0 : x = 0 <;> simp [testImage, hx0])

/-- C7: when decoding fails (e.g. the input path does not exist), the
converter returns failure and the state of the output path is unchanged:
still absent if it was absent, with its old contents otherwise. -/
theorem missing_input_no_output (existingOut : Option (List ℕ)) :
    convert_png_to_rgb565 none existingOut = (false, existingOut) := rfl

/-- C8: the CLI exits with code 0 when the conversion succeeds, with
code 1 when the argument count is not exactly two user arguments
(`len(sys.argv) != 3`), and with code 1 when the conversion fails. -/
theorem cli_exit_codes :
    (∀ argv d e, argv.length = 3 → (convert_png_to_rgb565 d e).1 = true →
      cli_exit argv d e = 0) ∧
    (∀ argv d e, argv.length ≠ 3 → cli_exit argv d e = 1) ∧
    (∀ argv d e, argv.length = 3 → (convert_png_to_rgb565 d e).1 = false →
      cli_exit argv d e = 1) := by
  refine ⟨?_, ?_, ?_⟩
  · intro argv d e h1 h2
    simp [cli_exit, h1, h2]
  · intro argv d e h1
    simp [cli_exit, h1]
  · intro argv d e h1 h2
    simp [cli_exit, h1, h2]

theorem cli_exit_codes_witness :
    cli_exit ["conv", "in", "out"] (some testImage) none = 0 ∧
    cli_exit ["conv"] (some testImage) none = 1 ∧
    cli_exit ["conv", "in", "out"] none none = 1 :=
  ⟨cli_exit_codes.1 _ _ _ (by decide) (by decide),
   cli_exit_codes.2.1 _ _ _ (by decide),
   cli_exit_codes.2.2 _ _ _ (by decide) (by decide)⟩

/-- C10: on a decoded image whose width or height exceeds 65535, the
header packing fails, so the converter returns failure instead of silently
truncating the dimensions. -/
theorem oversized_dims_fail (img : Image) (e : Option (List ℕ))
    (h : 65535 < img.width ∨ 65535 < img.height) :
    (convert_png_to_rgb565 (some img) e).1 = false := by
  have hw : write_output img = ([], false) := by
    unfold write_output
    rcases h with h | h
    · have hp : pack_u16_le img.width = none := by
        simp only [pack_u16_le, ite_eq_right_iff]
        intro hlt
        omega
      rw [hp]
    · have hp : pack_u16_le img.height = none := by
        simp only [pack_u16_le, ite_eq_right_iff]
        intro hlt
        omega
      rw [hp]
      cases pack_u16_le img.width <;> rfl
  simp [convert_png_to_rgb565, hw]

theorem oversized_dims_fail_witness :
    (65535 < Image.width ⟨65536, 1, fun _ _ => (0, 0, 0)⟩ ∨
      65535 < Image.height ⟨65536, 1, fun _ _ => (0, 0, 0)⟩) ∧
    (convert_png_to_rgb565 (some ⟨65536, 1, fun _ _ => (0, 0, 0)⟩) none).1 =
      false :=
  ⟨Or.inl (by decide),
    oversized_dims_fail ⟨65536, 1, fun _ _ => (0, 0, 0)⟩ none
      (Or.inl (by decide))⟩

end ConvertPng
